import Mathlib

/-!
Verification of the LearnC software renderer (src/Renderer/src/renderer.c).

Modelling conventions, applied uniformly:
* C `float` arithmetic is modelled by exact rational arithmetic (`ℚ`); `sqrtf`
  is modelled by `Rat.sqrt`.  The properties proved below depend only on facts
  on which exact arithmetic and IEEE float agree (e.g. the square root of `0`
  is `0` and the square root of a positive integer is positive).
* C casts `(int)`/`(uint8_t)` of a floating value truncate toward zero
  (`truncQ` below); the `uint8_t` cast additionally reduces mod 256.
* The framebuffer is a total function from (int) indices to 32-bit pixel
  words (`Nat` values); a store `fb[i] = v` becomes a function update.
* Fallible C functions returning `NULL` are modelled with `Option`; an input
  file is `Option (Int → Fin 256)` where `none` means the file could not be
  opened and otherwise the function gives the byte at each offset.
* In `renderer_draw_filled_triangle` the two divisions are modelled by a
  checked division `qdiv` that returns `none` on a zero divisor, so that the
  absence of division by zero is itself a provable statement.
* C `for`/`while` loops become structural recursion on an explicit iteration
  count; `renderer_draw_line`, whose C loop is `while(1)`, gets fuel
  `dx + dy + 1`, an upper bound on the iterations the algorithm performs.
-/

namespace LearnC

/-- Truncation toward zero of a rational, the behaviour of a C cast of a
floating value to an integer type. -/
def truncQ (q : ℚ) : Int := q.num.tdiv (q.den : Int)

/-- Packing of four channel bytes into one 32-bit pixel word, the C expression
`(a << 24) | (r << 16) | (g << 8) | b`. -/
def pack (a r g b : Nat) : Nat := (a <<< 24) ||| (r <<< 16) ||| (g <<< 8) ||| b

/-- The `Color` struct of renderer.h: four byte channels. -/
structure Color where
  r : Nat
  g : Nat
  b : Nat
  a : Nat
deriving DecidableEq

/-- The rendering-relevant part of the `Renderer` struct of renderer.h: the
logical size and the framebuffer contents (index `y * width + x`). -/
@[ext]
structure Renderer where
  width : Int
  height : Int
  framebuffer : Int → Nat

/-- Reduction of a rational to a byte, the C cast `(uint8_t)` applied to a
float expression: truncate toward zero, then take the low 8 bits. -/
def u8ofQ (q : ℚ) : Nat := (truncQ q).toNat % 256

/-- New value of a framebuffer word when `renderer_draw_pixel` writes colour
`color` over a pixel currently holding `old` (renderer.c lines 191-204):
opaque colours are stored directly, others are alpha blended over the
destination RGB and stored with alpha byte 255. -/
def drawPixelVal (color : Color) (old : Nat) : Nat :=
  if color.a = 255 then
    pack color.a color.r color.g color.b
  else
    let dst_r := (old >>> 16) &&& 255
    let dst_g := (old >>> 8) &&& 255
    let dst_b := old &&& 255
    let alpha : ℚ := (color.a : ℚ) / 255
    let r := u8ofQ ((color.r : ℚ) * alpha + (dst_r : ℚ) * (1 - alpha))
    let g := u8ofQ ((color.g : ℚ) * alpha + (dst_g : ℚ) * (1 - alpha))
    let b := u8ofQ ((color.b : ℚ) * alpha + (dst_b : ℚ) * (1 - alpha))
    pack 255 r g b

/-- The function `renderer_draw_pixel` (renderer.c lines 185-205): bounds
check, then in-place store of the (possibly blended) pixel word. -/
def renderer_draw_pixel (rend : Renderer) (x y : Int) (color : Color) : Renderer :=
  if x < 0 ∨ rend.width ≤ x ∨ y < 0 ∨ rend.height ≤ y then rend
  else
    { rend with
      framebuffer := fun i =>
        if i = y * rend.width + x then
          drawPixelVal color (rend.framebuffer (y * rend.width + x))
        else rend.framebuffer i }

/-- Loop body of `renderer_draw_line` (renderer.c lines 265-277).  The target
endpoint `x2, y2`, the deltas `dx, dy` and the steps `sx, sy` are fixed by the
surrounding function; the mutable loop state is the current point `x1, y1` and
the error term `err`.  The first argument is fuel bounding the number of
iterations; the wrapper below supplies `dx + dy + 1`, which is enough for
every terminating run of the C loop. -/
def drawLineLoop (x2 y2 dx dy sx sy : Int) (color : Color) :
    Nat → Int → Int → Int → Renderer → Renderer
  | 0, _, _, _, r => r
  | n + 1, x1, y1, err, r =>
    let r1 := renderer_draw_pixel r x1 y1 color
    if x1 = x2 ∧ y1 = y2 then r1
    else
      let e2 := 2 * err
      let errA := if e2 > -dy then err - dy else err
      let x1A := if e2 > -dy then x1 + sx else x1
      let errB := if e2 < dx then errA + dx else errA
      let y1A := if e2 < dx then y1 + sy else y1
      drawLineLoop x2 y2 dx dy sx sy color n x1A y1A errB r1

/-- The function `renderer_draw_line` (renderer.c lines 258-278): integer
Bresenham rasterization of the segment from `(x1, y1)` to `(x2, y2)`. -/
def renderer_draw_line (rend : Renderer) (x1 y1 x2 y2 : Int) (color : Color) : Renderer :=
  let dx := |x2 - x1|
  let dy := |y2 - y1|
  let sx : Int := if x1 < x2 then 1 else -1
  let sy : Int := if y1 < y2 then 1 else -1
  drawLineLoop x2 y2 dx dy sx sy color ((dx + dy).toNat + 1) x1 y1 (dx - dy) rend

/-- List of the `renderer_draw_line` invocations made by one run of
`renderer_draw_thick_line` (renderer.c lines 451-461), in loop order.  The
loop variable is `t = -thickness/2 .. thickness/2` (C truncating division);
each iteration with nonzero length emits one offset copy of the base line. -/
def thickLineCallsLoop (x1 y1 x2 y2 lo : Int) : Nat → List (Int × Int × Int × Int)
  | 0 => []
  | n + 1 =>
    let t := lo + n
    let dx := y2 - y1
    let dy := x2 - x1
    let len := Rat.sqrt ((dx * dx + dy * dy : Int) : ℚ)
    let rest := thickLineCallsLoop x1 y1 x2 y2 lo n
    if len = 0 then rest
    else
      let ox := truncQ (((t * dx : Int) : ℚ) / len)
      let oy := truncQ (((-(t * dy) : Int) : ℚ) / len)
      rest ++ [(x1 + ox, y1 + oy, x2 + ox, y2 + oy)]

/-- All `renderer_draw_line` calls of `renderer_draw_thick_line` for the given
arguments.  The C loop runs `t` from `-thickness/2` up to `thickness/2`. -/
def renderer_draw_thick_line_calls (x1 y1 x2 y2 thickness : Int) :
    List (Int × Int × Int × Int) :=
  let lo := (-thickness).tdiv 2
  let hi := thickness.tdiv 2
  thickLineCallsLoop x1 y1 x2 y2 lo (hi - lo + 1).toNat

/-- The function `renderer_draw_thick_line` (renderer.c lines 451-461): the
effect on the framebuffer is that of the emitted `renderer_draw_line` calls in
order. -/
def renderer_draw_thick_line (rend : Renderer) (x1 y1 x2 y2 thickness : Int)
    (color : Color) : Renderer :=
  (renderer_draw_thick_line_calls x1 y1 x2 y2 thickness).foldl
    (fun r call => renderer_draw_line r call.1 call.2.1 call.2.2.1 call.2.2.2 color) rend

/-- Division of rationals checked against a zero divisor.  The C sources
divide floats; a result of `none` here marks a division whose divisor is
exactly zero. -/
def qdiv (n d : ℚ) : Option ℚ := if d = 0 then none else some (n / d)

/-- Inner scanline fill of `renderer_draw_filled_triangle` (renderer.c line
445): draws pixels `x = xa .. xb` at height `y`. -/
def fillRow (r : Renderer) (y xa xb : Int) (color : Color) : Renderer :=
  (List.range (xb - xa + 1).toNat).foldl
    (fun r2 k => renderer_draw_pixel r2 (xa + (k : Int)) y color) r

/-- One scanline of `renderer_draw_filled_triangle` (renderer.c lines
433-448), for already y-sorted vertices.  Returns `none` exactly when one of
the two divisions would have a zero divisor. -/
def triScanline (x1 y1 x2 y2 x3 y3 totalHeight : Int) (color : Color) (y : Int)
    (r : Renderer) : Option Renderer :=
  let secondHalf := y > y2 ∨ y2 = y1
  let segmentHeight := if secondHalf then y3 - y2 else y2 - y1
  if segmentHeight = 0 then some r
  else
    match qdiv (((y - y1 : Int) : ℚ)) ((totalHeight : Int) : ℚ) with
    | none => none
    | some alpha =>
      match qdiv (((y - (if secondHalf then y2 else y1) : Int) : ℚ))
          ((segmentHeight : Int) : ℚ) with
      | none => none
      | some beta =>
        let xa := truncQ ((x1 : ℚ) + ((x3 - x1 : Int) : ℚ) * alpha)
        let xb :=
          if secondHalf then truncQ ((x2 : ℚ) + ((x3 - x2 : Int) : ℚ) * beta)
          else truncQ ((x1 : ℚ) + ((x2 - x1 : Int) : ℚ) * beta)
        let xaS := if xa > xb then xb else xa
        let xbS := if xa > xb then xa else xb
        some (fillRow r y xaS xbS color)

/-- Scanline loop of `renderer_draw_filled_triangle` (renderer.c line 433):
`for (y = y1; y <= y3; y++)`, with fuel supplied by the wrapper. -/
def triFillLoop (x1 y1 x2 y2 x3 y3 totalHeight : Int) (color : Color) :
    Nat → Int → Renderer → Option Renderer
  | 0, _, r => some r
  | n + 1, y, r =>
    if y > y3 then some r
    else
      match triScanline x1 y1 x2 y2 x3 y3 totalHeight color y r with
      | none => none
      | some r2 => triFillLoop x1 y1 x2 y2 x3 y3 totalHeight color n (y + 1) r2

/-- Body of `renderer_draw_filled_triangle` after the three sorting swaps
(renderer.c lines 430-448): early return on zero total height, then the
scanline loop. -/
def triFillSorted (rend : Renderer) (x1 y1 x2 y2 x3 y3 : Int) (color : Color) :
    Option Renderer :=
  let totalHeight := y3 - y1
  if totalHeight = 0 then some rend
  else triFillLoop x1 y1 x2 y2 x3 y3 totalHeight color ((y3 - y1).toNat + 1) y1 rend

/-- Third sorting swap of `renderer_draw_filled_triangle` (renderer.c line
428): swap vertices 2 and 3 when `y2 > y3`. -/
def triSwap23 (rend : Renderer) (x1 y1 x2 y2 x3 y3 : Int) (color : Color) :
    Option Renderer :=
  if y2 > y3 then triFillSorted rend x1 y1 x3 y3 x2 y2 color
  else triFillSorted rend x1 y1 x2 y2 x3 y3 color

/-- Second sorting swap of `renderer_draw_filled_triangle` (renderer.c line
427): swap vertices 1 and 3 when `y1 > y3`. -/
def triSwap13 (rend : Renderer) (x1 y1 x2 y2 x3 y3 : Int) (color : Color) :
    Option Renderer :=
  if y1 > y3 then triSwap23 rend x3 y3 x2 y2 x1 y1 color
  else triSwap23 rend x1 y1 x2 y2 x3 y3 color

/-- The function `renderer_draw_filled_triangle` (renderer.c lines 425-449).
The result is `some` of the final renderer; `none` would mark a division by
zero inside the scanline loop (proved impossible below). -/
def renderer_draw_filled_triangle (rend : Renderer) (x1 y1 x2 y2 x3 y3 : Int)
    (color : Color) : Option Renderer :=
  if y1 > y2 then triSwap13 rend x2 y2 x1 y1 x3 y3 color
  else triSwap13 rend x1 y1 x2 y2 x3 y3 color

/-- The `Image` struct of renderer.h: size and decoded ARGB pixel grid. -/
structure Image where
  width : Int
  height : Int
  pixels : Int → Nat

/-- Content of an opened binary file: the byte stored at each offset.  The
offsets actually read by the decoder are nonnegative. -/
def BmpFile : Type := Int → Fin 256

/-- Little-endian unsigned 16-bit read at `off`, the C expression
`*(short*)&header[off]` before sign interpretation. -/
def readU16 (f : BmpFile) (off : Int) : Nat :=
  (f off).val + 256 * (f (off + 1)).val

/-- Signed 16-bit read at `off`, the C expression `*(short*)&header[off]`. -/
def readI16 (f : BmpFile) (off : Int) : Int :=
  let v := readU16 f off
  if v < 32768 then (v : Int) else (v : Int) - 65536

/-- Little-endian unsigned 32-bit read at `off`. -/
def readU32 (f : BmpFile) (off : Int) : Nat :=
  (f off).val + 256 * (f (off + 1)).val + 65536 * (f (off + 2)).val +
    16777216 * (f (off + 3)).val

/-- Signed 32-bit read at `off`, the C expression `*(int*)&header[off]`. -/
def readI32 (f : BmpFile) (off : Int) : Int :=
  let v := readU32 f off
  if v < 2147483648 then (v : Int) else (v : Int) - 4294967296

/-- Inner column loop of the BMP decoder (renderer.c lines 311-318) for one
row.  Iterations `x = 0 .. n-1` each store one decoded ARGB word at index
`idxBase + x`; `rowStart` is the file offset of the row's first byte. -/
def bmpRowLoop (f : BmpFile) (bpp rowStart idxBase : Int) :
    Nat → (Int → Nat) → Int → Nat
  | 0, px => px
  | n + 1, px =>
    let px1 := bmpRowLoop f bpp rowStart idxBase n px
    let x : Int := (n : Int)
    let b := (f (rowStart + x * bpp.tdiv 8)).val
    let g := (f (rowStart + x * bpp.tdiv 8 + 1)).val
    let r := (f (rowStart + x * bpp.tdiv 8 + 2)).val
    let a := if bpp = 32 then (f (rowStart + x * 4 + 3)).val else 255
    fun i => if i = idxBase + x then pack a r g b else px1 i

/-- Outer row loop of the BMP decoder (renderer.c lines 309-319).  Row
iteration `y` reads `rowSize` bytes starting at offset `54 + y * rowSize` and
stores them at destination row `imgH - 1 - y` when the header height is
positive (bottom-up file), at row `y` otherwise. -/
def bmpRowsLoop (f : BmpFile) (bpp width height imgH rowSize : Int) :
    Nat → (Int → Nat) → Int → Nat
  | 0, px => px
  | n + 1, px =>
    let px1 := bmpRowsLoop f bpp width height imgH rowSize n px
    let y : Int := (n : Int)
    let idxBase := if height > 0 then (imgH - 1 - y) * width else y * width
    bmpRowLoop f bpp (54 + y * rowSize) idxBase width.toNat px1

/-- The function `image_load_bmp` (renderer.c lines 280-324).  The input is
`none` when `fopen` fails; otherwise it is the byte content of the file.  The
result is `none` exactly on the two header rejections of the source. -/
def image_load_bmp (file : Option BmpFile) : Option Image :=
  match file with
  | none => none
  | some f =>
    if (f 0).val ≠ 66 ∨ (f 1).val ≠ 77 then none
    else
      let width := readI32 f 18
      let height := readI32 f 22
      let bitsPerPixel := readI16 f 28
      if bitsPerPixel ≠ 24 ∧ bitsPerPixel ≠ 32 then none
      else
        let imgH := |height|
        let rowSize := ((bitsPerPixel * width + 31).tdiv 32) * 4
        some
          { width := width
            height := imgH
            pixels :=
              bmpRowsLoop f bitsPerPixel width height imgH rowSize imgH.toNat
                (fun _ => 0) }

/-- The function `renderer_draw_image` (renderer.c lines 333-347): early
return on a null image, otherwise per-pixel blit through
`renderer_draw_pixel`. -/
def renderer_draw_image (rend : Renderer) (img : Option Image) (x y : Int) :
    Renderer :=
  match img with
  | none => rend
  | some im =>
    (List.range im.height.toNat).foldl
      (fun r j =>
        (List.range im.width.toNat).foldl
          (fun r2 i =>
            let pixel := im.pixels ((j : Int) * im.width + (i : Int))
            let color : Color :=
              ⟨(pixel >>> 16) &&& 255, (pixel >>> 8) &&& 255, pixel &&& 255,
                (pixel >>> 24) &&& 255⟩
            renderer_draw_pixel r2 (x + (i : Int)) (y + (j : Int)) color)
          r)
      rend

/-- Inner pixel loop of one textured scanline (renderer.c lines 505-523). -/
def texRow (r : Renderer) (y xa xb : Int) (ua va ub vb : ℚ) (tex : Image) :
    Renderer :=
  (List.range (xb - xa + 1).toNat).foldl
    (fun r2 k =>
      let x := xa + (k : Int)
      let t : ℚ := if xb - xa > 0 then ((x - xa : Int) : ℚ) / ((xb - xa : Int) : ℚ) else 0
      let u := ua + (ub - ua) * t
      let v := va + (vb - va) * t
      let texX0 := (truncQ (u * (tex.width : ℚ))).tmod tex.width
      let texY0 := (truncQ (v * (tex.height : ℚ))).tmod tex.height
      let texX := if texX0 < 0 then texX0 + tex.width else texX0
      let texY := if texY0 < 0 then texY0 + tex.height else texY0
      let pixel := tex.pixels (texY * tex.width + texX)
      let color : Color :=
        ⟨(pixel >>> 16) &&& 255, (pixel >>> 8) &&& 255, pixel &&& 255,
          (pixel >>> 24) &&& 255⟩
      renderer_draw_pixel r2 x y color)
    r

/-- One scanline of `renderer_draw_textured_triangle` (renderer.c lines
483-524), for already y-sorted vertices. -/
def texScanline (x1 y1 x2 y2 x3 y3 totalHeight : Int) (u1 v1 u2 v2 u3 v3 : ℚ)
    (tex : Image) (y : Int) (r : Renderer) : Renderer :=
  let secondHalf := y > y2 ∨ y2 = y1
  let segmentHeight := if secondHalf then y3 - y2 else y2 - y1
  if segmentHeight = 0 then r
  else
    let alpha : ℚ := ((y - y1 : Int) : ℚ) / ((totalHeight : Int) : ℚ)
    let beta : ℚ :=
      ((y - (if secondHalf then y2 else y1) : Int) : ℚ) / ((segmentHeight : Int) : ℚ)
    let xa := truncQ ((x1 : ℚ) + ((x3 - x1 : Int) : ℚ) * alpha)
    let xb :=
      if secondHalf then truncQ ((x2 : ℚ) + ((x3 - x2 : Int) : ℚ) * beta)
      else truncQ ((x1 : ℚ) + ((x2 - x1 : Int) : ℚ) * beta)
    let ua := u1 + (u3 - u1) * alpha
    let va := v1 + (v3 - v1) * alpha
    let ub := if secondHalf then u2 + (u3 - u2) * beta else u1 + (u2 - u1) * beta
    let vb := if secondHalf then v2 + (v3 - v2) * beta else v1 + (v2 - v1) * beta
    let xaS := if xa > xb then xb else xa
    let xbS := if xa > xb then xa else xb
    let uaS := if xa > xb then ub else ua
    let ubS := if xa > xb then ua else ub
    let vaS := if xa > xb then vb else va
    let vbS := if xa > xb then va else vb
    texRow r y xaS xbS uaS vaS ubS vbS tex

/-- Scanline loop of `renderer_draw_textured_triangle`. -/
def texFillLoop (x1 y1 x2 y2 x3 y3 totalHeight : Int) (u1 v1 u2 v2 u3 v3 : ℚ)
    (tex : Image) : Nat → Int → Renderer → Renderer
  | 0, _, r => r
  | n + 1, y, r =>
    if y > y3 then r
    else
      texFillLoop x1 y1 x2 y2 x3 y3 totalHeight u1 v1 u2 v2 u3 v3 tex n (y + 1)
        (texScanline x1 y1 x2 y2 x3 y3 totalHeight u1 v1 u2 v2 u3 v3 tex y r)

/-- Body of `renderer_draw_textured_triangle` after sorting (renderer.c lines
480-524). -/
def texFillSorted (rend : Renderer) (x1 y1 x2 y2 x3 y3 : Int)
    (u1 v1 u2 v2 u3 v3 : ℚ) (tex : Image) : Renderer :=
  let totalHeight := y3 - y1
  if totalHeight = 0 then rend
  else
    texFillLoop x1 y1 x2 y2 x3 y3 totalHeight u1 v1 u2 v2 u3 v3 tex
      ((y3 - y1).toNat + 1) y1 rend

/-- Third sorting swap of `renderer_draw_textured_triangle` (renderer.c lines
475-478). -/
def texSwap23 (rend : Renderer) (x1 y1 x2 y2 x3 y3 : Int)
    (u1 v1 u2 v2 u3 v3 : ℚ) (tex : Image) : Renderer :=
  if y2 > y3 then texFillSorted rend x1 y1 x3 y3 x2 y2 u1 v1 u3 v3 u2 v2 tex
  else texFillSorted rend x1 y1 x2 y2 x3 y3 u1 v1 u2 v2 u3 v3 tex

/-- Second sorting swap of `renderer_draw_textured_triangle` (renderer.c lines
471-474). -/
def texSwap13 (rend : Renderer) (x1 y1 x2 y2 x3 y3 : Int)
    (u1 v1 u2 v2 u3 v3 : ℚ) (tex : Image) : Renderer :=
  if y1 > y3 then texSwap23 rend x3 y3 x2 y2 x1 y1 u3 v3 u2 v2 u1 v1 tex
  else texSwap23 rend x1 y1 x2 y2 x3 y3 u1 v1 u2 v2 u3 v3 tex

/-- The function `renderer_draw_textured_triangle` (renderer.c lines 463-525):
early return on a null texture, then the sorted scanline fill. -/
def renderer_draw_textured_triangle (rend : Renderer) (x1 y1 x2 y2 x3 y3 : Int)
    (u1 v1 u2 v2 u3 v3 : ℚ) (texture : Option Image) : Renderer :=
  match texture with
  | none => rend
  | some tex =>
    if y1 > y2 then texSwap13 rend x2 y2 x1 y1 x3 y3 u2 v2 u1 v1 u3 v3 tex
    else texSwap13 rend x1 y1 x2 y2 x3 y3 u1 v1 u2 v2 u3 v3 tex

/-- The `Vec3` struct of renderer.h, with float components modelled in ℚ. -/
structure Vec3 where
  x : ℚ
  y : ℚ
  z : ℚ
deriving DecidableEq

/-- The function `vec3_make` (renderer.c lines 527-530). -/
def vec3_make (x y z : ℚ) : Vec3 := ⟨x, y, z⟩

/-- The function `vec3_add` (renderer.c lines 532-534). -/
def vec3_add (a b : Vec3) : Vec3 := vec3_make (a.x + b.x) (a.y + b.y) (a.z + b.z)

/-- The function `vec3_sub` (renderer.c lines 536-538). -/
def vec3_sub (a b : Vec3) : Vec3 := vec3_make (a.x - b.x) (a.y - b.y) (a.z - b.z)

/-- The function `vec3_mul` (renderer.c lines 540-542). -/
def vec3_mul (v : Vec3) (s : ℚ) : Vec3 := vec3_make (v.x * s) (v.y * s) (v.z * s)

/-- The function `vec3_dot` (renderer.c lines 548-550). -/
def vec3_dot (a b : Vec3) : ℚ := a.x * b.x + a.y * b.y + a.z * b.z

/-- The function `vec3_normalize` (renderer.c lines 552-556): length via
square root of the squared norm, early return of the zero vector on zero
length, otherwise componentwise division by the length. -/
def vec3_normalize (v : Vec3) : Vec3 :=
  let len := Rat.sqrt (v.x * v.x + v.y * v.y + v.z * v.z)
  if len = 0 then vec3_make 0 0 0
  else vec3_make (v.x / len) (v.y / len) (v.z / len)

/-- The `Mat4` struct of renderer.h: a 4 by 4 float matrix, indexed as in the
C source by `m i j` for `m.m[i][j]`. -/
def Mat4 : Type := Fin 4 → Fin 4 → ℚ

/-- The function `mat4_identity` (renderer.c lines 558-562): zero matrix with
ones on the diagonal. -/
def mat4_identity : Mat4 := fun i j => if i = j then 1 else 0

/-- The function `mat4_mul_vec3` (renderer.c lines 657-669): row-vector style
transform of `(v, w)` with perspective division by the resulting `ww` when it
is nonzero. -/
def mat4_mul_vec3 (m : Mat4) (v : Vec3) (w : ℚ) : Vec3 :=
  let rx := m 0 0 * v.x + m 1 0 * v.y + m 2 0 * v.z + m 3 0 * w
  let ry := m 0 1 * v.x + m 1 1 * v.y + m 2 1 * v.z + m 3 1 * w
  let rz := m 0 2 * v.x + m 1 2 * v.y + m 2 2 * v.z + m 3 2 * w
  let ww := m 0 3 * v.x + m 1 3 * v.y + m 2 3 * v.z + m 3 3 * w
  if ww ≠ 0 then vec3_make (rx / ww) (ry / ww) (rz / ww)
  else vec3_make rx ry rz

/-- The function `renderer_project_point` (renderer.c lines 671-676): output
screen coordinates and depth, returned as a triple in place of the C output
pointers. -/
def renderer_project_point (rend : Renderer) (point : Vec3) (transform : Mat4) :
    Int × Int × ℚ :=
  let projected := mat4_mul_vec3 transform point 1
  (truncQ ((projected.x + 1) * (1 / 2) * (rend.width : ℚ)),
    truncQ ((1 - projected.y) * (1 / 2) * (rend.height : ℚ)),
    projected.z)

/-- Predicate for the bounds check of `renderer_draw_pixel`: the point lies in
the rectangle `[0,width) × [0,height)`. -/
def inBounds (r : Renderer) (p : Int × Int) : Prop :=
  0 ≤ p.1 ∧ p.1 < r.width ∧ 0 ≤ p.2 ∧ p.2 < r.height

/-- Sequential painting of a list of points with one colour through
`renderer_draw_pixel`, used to describe the effect of axis-aligned Bresenham
runs. -/
def paintList (c : Color) (ps : List (Int × Int)) (r : Renderer) : Renderer :=
  ps.foldl (fun r2 p => renderer_draw_pixel r2 p.1 p.2 c) r

/-- Horizontal run of `cnt` points starting at `(a, y0)` and stepping by `s`
in x. -/
def hsegList (y0 a : Int) (cnt : Nat) (s : Int) : List (Int × Int) :=
  (List.range cnt).map (fun k : Nat => (a + s * (k : Int), y0))

/-- Vertical run of `cnt` points starting at `(x0, b)` and stepping by `s`
in y. -/
def vsegList (x0 b : Int) (cnt : Nat) (s : Int) : List (Int × Int) :=
  (List.range cnt).map (fun k : Nat => (x0, b + s * (k : Int)))

/-- Byte content of a concrete 2 by 2 uncompressed 24-bit BMP used as a test
vector: bottom-up rows of 8 bytes (6 pixel bytes plus 2 padding bytes), with
grid colours red, green (top row, left to right) and blue, white (bottom
row). -/
def bmpSampleBytes : List (Fin 256) :=
  [66, 77, 0, 0, 0, 0, 0, 0, 0, 0, 0, 0, 0, 0, 0, 0, 0, 0,
    2, 0, 0, 0, 2, 0, 0, 0, 1, 0, 24, 0,
    0, 0, 0, 0, 0, 0, 0, 0, 0, 0, 0, 0, 0, 0, 0, 0, 0, 0, 0, 0, 0, 0, 0, 0,
    255, 0, 0, 255, 255, 255, 0, 0,
    0, 0, 255, 0, 255, 0, 0, 0]

/-- The concrete 2 by 2 BMP as a byte stream. -/
def bmpSampleFile : BmpFile := fun i => bmpSampleBytes.getD i.toNat 0

section Helpers

/-- Truncation toward zero of an integer-valued rational is that integer. -/
theorem truncQ_intCast (n : Int) : truncQ ((n : ℚ)) = n := by
  simp [truncQ, Rat.num_intCast, Rat.den_intCast]

/-- Truncation toward zero agrees with the floor on nonnegative rationals. -/
theorem truncQ_eq_floor (q : ℚ) (h : 0 ≤ q) : truncQ q = ⌊q⌋ := by
  rw [truncQ, Rat.floor_def, Int.tdiv_eq_ediv (Rat.num_nonneg.mpr h) (by positivity)]

/-- Checked division with a nonzero divisor succeeds. -/
theorem qdiv_of_ne (n d : ℚ) (h : d ≠ 0) : qdiv n d = some (n / d) := by
  unfold qdiv
  exact if_neg h

/-- Square root of the rational zero. -/
theorem rat_sqrt_zero : Rat.sqrt 0 = 0 := by
  have h := Rat.sqrt_eq (0 : ℚ)
  rwa [mul_zero, abs_zero] at h

/-- Scanlines of the filled triangle never hit a zero divisor once the total
height is nonzero: the two divisions are guarded by the early return and the
zero-segment-height skip. -/
theorem triScanline_isSome (x1 y1 x2 y2 x3 y3 totalHeight : Int) (c : Color)
    (y : Int) (r : Renderer) (h : totalHeight ≠ 0) :
    (triScanline x1 y1 x2 y2 x3 y3 totalHeight c y r).isSome = true := by
  simp only [triScanline]
  by_cases hseg : (if y > y2 ∨ y2 = y1 then y3 - y2 else y2 - y1) = (0 : Int)
  · rw [if_pos hseg]
    rfl
  · rw [if_neg hseg]
    simp only
      [qdiv_of_ne _ _ (show ((totalHeight : Int) : ℚ) ≠ 0 by exact_mod_cast h),
        qdiv_of_ne _ _
          (show (((if y > y2 ∨ y2 = y1 then y3 - y2 else y2 - y1 : Int)) : ℚ) ≠ 0 by
            exact_mod_cast hseg)]
    rfl

/-- The scanline loop of the filled triangle always returns a result. -/
theorem triFillLoop_isSome (x1 y1 x2 y2 x3 y3 totalHeight : Int) (c : Color)
    (h : totalHeight ≠ 0) :
    ∀ (n : Nat) (y : Int) (r : Renderer),
      (triFillLoop x1 y1 x2 y2 x3 y3 totalHeight c n y r).isSome = true := by
  intro n
  induction n with
  | zero => intro y r; rfl
  | succ m ih =>
    intro y r
    unfold triFillLoop
    split
    · rfl
    · have hs := triScanline_isSome x1 y1 x2 y2 x3 y3 totalHeight c y r h
      cases hsc : triScanline x1 y1 x2 y2 x3 y3 totalHeight c y r with
      | none => rw [hsc] at hs; simp at hs
      | some r2 => exact ih (y + 1) r2

/-- The sorted filled-triangle body always returns a result. -/
theorem triFillSorted_isSome (rend : Renderer) (x1 y1 x2 y2 x3 y3 : Int)
    (c : Color) : (triFillSorted rend x1 y1 x2 y2 x3 y3 c).isSome = true := by
  simp only [triFillSorted]
  by_cases h : y3 - y1 = 0
  · rw [if_pos h]
    rfl
  · rw [if_neg h]
    exact triFillLoop_isSome _ _ _ _ _ _ _ _ h _ _ _

/-- The second swap stage of the filled triangle always returns a result. -/
theorem triSwap23_isSome (rend : Renderer) (x1 y1 x2 y2 x3 y3 : Int)
    (c : Color) : (triSwap23 rend x1 y1 x2 y2 x3 y3 c).isSome = true := by
  unfold triSwap23
  split <;> exact triFillSorted_isSome _ _ _ _ _ _ _ _

/-- The first swap stage of the filled triangle always returns a result. -/
theorem triSwap13_isSome (rend : Renderer) (x1 y1 x2 y2 x3 y3 : Int)
    (c : Color) : (triSwap13 rend x1 y1 x2 y2 x3 y3 c).isSome = true := by
  unfold triSwap13
  split <;> exact triSwap23_isSome _ _ _ _ _ _ _ _

/-- Pixel drawing never changes the width. -/
theorem draw_pixel_width (r : Renderer) (x y : Int) (c : Color) :
    (renderer_draw_pixel r x y c).width = r.width := by
  rw [renderer_draw_pixel]
  split <;> rfl

/-- Pixel drawing never changes the height. -/
theorem draw_pixel_height (r : Renderer) (x y : Int) (c : Color) :
    (renderer_draw_pixel r x y c).height = r.height := by
  rw [renderer_draw_pixel]
  split <;> rfl

/-- Pixel drawing leaves every framebuffer word other than the written one
unchanged, and writes nothing at all when the point is out of bounds. -/
theorem draw_pixel_fb_ne (r : Renderer) (x y i : Int) (c : Color)
    (h : ¬(inBounds r (x, y) ∧ i = y * r.width + x)) :
    (renderer_draw_pixel r x y c).framebuffer i = r.framebuffer i := by
  rw [renderer_draw_pixel]
  by_cases hb : x < 0 ∨ r.width ≤ x ∨ y < 0 ∨ r.height ≤ y
  · rw [if_pos hb]
  · rw [if_neg hb]
    have hib : inBounds r (x, y) := by
      unfold inBounds
      push_neg at hb
      exact ⟨hb.1, hb.2.1, hb.2.2.1, hb.2.2.2⟩
    have hi : i ≠ y * r.width + x := fun hc => h ⟨hib, hc⟩
    exact if_neg hi

/-- In-bounds pixel drawing stores the blended word at the written index. -/
theorem draw_pixel_fb_eq (r : Renderer) (x y : Int) (c : Color)
    (h : inBounds r (x, y)) :
    (renderer_draw_pixel r x y c).framebuffer (y * r.width + x) =
      drawPixelVal c (r.framebuffer (y * r.width + x)) := by
  obtain ⟨h1, h2, h3, h4⟩ := h
  rw [renderer_draw_pixel, if_neg (by dsimp only at h1 h2 h3 h4; omega)]
  dsimp only
  rw [if_pos rfl]

/-- Uniqueness of the row-major decomposition `a * w + x` with `0 ≤ x < w`. -/
theorem rowIdx_inj (w a b x x1 : Int) (hx : 0 ≤ x) (hxw : x < w)
    (hx1 : 0 ≤ x1) (hx1w : x1 < w) (heq : a * w + x = b * w + x1) :
    a = b ∧ x = x1 := by
  have hw : w ≠ 0 := by omega
  have ha : (x + a * w) / w = a := by
    rw [Int.add_mul_ediv_right _ _ hw, Int.ediv_eq_zero_of_lt hx hxw, zero_add]
  have hb : (x1 + b * w) / w = b := by
    rw [Int.add_mul_ediv_right _ _ hw, Int.ediv_eq_zero_of_lt hx1 hx1w, zero_add]
  have hab : a = b := by
    rw [← ha, ← hb, show x + a * w = a * w + x by ring, heq]
    ring_nf
  exact ⟨hab, by rw [hab] at heq; omega⟩

/-- Painting a list of points preserves the width. -/
theorem paintList_width (c : Color) :
    ∀ (ps : List (Int × Int)) (r : Renderer), (paintList c ps r).width = r.width := by
  intro ps
  induction ps with
  | nil => intro r; rfl
  | cons p l ih =>
    intro r
    show (paintList c l (renderer_draw_pixel r p.1 p.2 c)).width = r.width
    rw [ih, draw_pixel_width]

/-- Painting a list of points preserves the height. -/
theorem paintList_height (c : Color) :
    ∀ (ps : List (Int × Int)) (r : Renderer), (paintList c ps r).height = r.height := by
  intro ps
  induction ps with
  | nil => intro r; rfl
  | cons p l ih =>
    intro r
    show (paintList c l (renderer_draw_pixel r p.1 p.2 c)).height = r.height
    rw [ih, draw_pixel_height]

/-- Bounds checks are stable under pixel drawing. -/
theorem inBounds_draw_pixel (r : Renderer) (x y : Int) (c : Color)
    (q : Int × Int) : inBounds (renderer_draw_pixel r x y c) q ↔ inBounds r q := by
  unfold inBounds
  rw [draw_pixel_width, draw_pixel_height]

/-- A framebuffer word hit by no point of the painted list is unchanged. -/
theorem paintList_fb_miss (c : Color) :
    ∀ (ps : List (Int × Int)) (r : Renderer) (i : Int),
      (¬∃ p ∈ ps, inBounds r p ∧ i = p.2 * r.width + p.1) →
      (paintList c ps r).framebuffer i = r.framebuffer i := by
  intro ps
  induction ps with
  | nil => intro r i _; rfl
  | cons p l ih =>
    intro r i h
    push_neg at h
    have hp := h p (List.mem_cons_self p l)
    have hl : ¬∃ q ∈ l, inBounds r q ∧ i = q.2 * r.width + q.1 := by
      rintro ⟨q, hq, hbq, hiq⟩
      exact h q (List.mem_cons_of_mem p hq) hbq hiq
    show (paintList c l (renderer_draw_pixel r p.1 p.2 c)).framebuffer i =
      r.framebuffer i
    rw [ih (renderer_draw_pixel r p.1 p.2 c) i (by
      rintro ⟨q, hq, hbq, hiq⟩
      rw [inBounds_draw_pixel] at hbq
      rw [draw_pixel_width] at hiq
      exact hl ⟨q, hq, hbq, hiq⟩)]
    exact draw_pixel_fb_ne r p.1 p.2 i c (by
      rintro ⟨hbp, hip⟩
      exact hp hbp hip)

/-- A framebuffer word hit by a point of a duplicate-free painted list holds
the blend of the colour over the original word. -/
theorem paintList_fb_hit (c : Color) :
    ∀ (ps : List (Int × Int)) (r : Renderer) (i : Int), ps.Nodup →
      (∃ p ∈ ps, inBounds r p ∧ i = p.2 * r.width + p.1) →
      (paintList c ps r).framebuffer i = drawPixelVal c (r.framebuffer i) := by
  intro ps
  induction ps with
  | nil => rintro r i _ ⟨p, hp, _⟩; exact absurd hp (List.not_mem_nil p)
  | cons p l ih =>
    intro r i hnd hex
    obtain ⟨hpl, hndl⟩ := List.nodup_cons.mp hnd
    show (paintList c l (renderer_draw_pixel r p.1 p.2 c)).framebuffer i =
      drawPixelVal c (r.framebuffer i)
    by_cases hl : ∃ q ∈ l, inBounds r q ∧ i = q.2 * r.width + q.1
    · obtain ⟨q, hq, hbq, hiq⟩ := hl
      have hfb : (renderer_draw_pixel r p.1 p.2 c).framebuffer i =
          r.framebuffer i := by
        apply draw_pixel_fb_ne
        rintro ⟨hbp, hip⟩
        have heq : q.2 * r.width + q.1 = p.2 * r.width + p.1 := by
          rw [← hiq, ← hip]
        obtain ⟨h2, h1⟩ := rowIdx_inj r.width q.2 p.2 q.1 p.1 hbq.1 hbq.2.1
          hbp.1 hbp.2.1 heq
        have hpq : p = q := Prod.ext h1.symm h2.symm
        exact hpl (by rw [hpq]; exact hq)
      rw [ih (renderer_draw_pixel r p.1 p.2 c) i hndl (by
        refine ⟨q, hq, ?_, ?_⟩
        · rwa [inBounds_draw_pixel]
        · rwa [draw_pixel_width]), hfb]
    · have hp : inBounds r p ∧ i = p.2 * r.width + p.1 := by
        obtain ⟨q, hq, hbq, hiq⟩ := hex
        rcases List.mem_cons.mp hq with hq1 | hq2
        · exact ⟨by rwa [hq1] at hbq, by rwa [hq1] at hiq⟩
        · exact absurd ⟨q, hq2, hbq, hiq⟩ hl
      rw [paintList_fb_miss c l (renderer_draw_pixel r p.1 p.2 c) i (by
        rintro ⟨q, hq, hbq, hiq⟩
        rw [inBounds_draw_pixel] at hbq
        rw [draw_pixel_width] at hiq
        exact hl ⟨q, hq, hbq, hiq⟩)]
      rw [hp.2]
      exact draw_pixel_fb_eq r p.1 p.2 c hp.1

/-- Peeling one point off a horizontal run. -/
theorem hsegList_succ (y0 a s : Int) (m : Nat) :
    hsegList y0 a (m + 1) s = (a, y0) :: hsegList y0 (a + s) m s := by
  unfold hsegList
  rw [List.range_succ_eq_map, List.map_cons, List.map_map]
  congr 1
  · simp
  · apply List.map_congr_left
    intro k _
    simp only [Function.comp_apply, Prod.mk.injEq, and_true, true_and]
    push_cast
    ring

/-- Horizontal runs with unit step have no duplicate points. -/
theorem hsegList_nodup (y0 a s : Int) (cnt : Nat) (hs : s = 1 ∨ s = -1) :
    (hsegList y0 a cnt s).Nodup := by
  unfold hsegList
  refine List.Nodup.map ?_ (List.nodup_range cnt)
  intro k k1 hkk
  simp only [Prod.mk.injEq] at hkk
  have h1 := hkk.1
  rcases hs with rfl | rfl <;> omega

/-- Membership in a horizontal run. -/
theorem hsegList_mem (y0 a s : Int) (cnt : Nat) (p : Int × Int) :
    p ∈ hsegList y0 a cnt s ↔ ∃ k : Nat, k < cnt ∧ p = (a + s * (k : Int), y0) := by
  unfold hsegList
  constructor
  · intro h
    obtain ⟨k, hk, hf⟩ := List.mem_map.mp h
    exact ⟨k, List.mem_range.mp hk, hf.symm⟩
  · rintro ⟨k, hk, rfl⟩
    exact List.mem_map.mpr ⟨k, List.mem_range.mpr hk, rfl⟩

/-- Peeling one point off a vertical run. -/
theorem vsegList_succ (x0 b s : Int) (m : Nat) :
    vsegList x0 b (m + 1) s = (x0, b) :: vsegList x0 (b + s) m s := by
  unfold vsegList
  rw [List.range_succ_eq_map, List.map_cons, List.map_map]
  congr 1
  · simp
  · apply List.map_congr_left
    intro k _
    simp only [Function.comp_apply, Prod.mk.injEq, and_true, true_and]
    push_cast
    ring

/-- Vertical runs with unit step have no duplicate points. -/
theorem vsegList_nodup (x0 b s : Int) (cnt : Nat) (hs : s = 1 ∨ s = -1) :
    (vsegList x0 b cnt s).Nodup := by
  unfold vsegList
  refine List.Nodup.map ?_ (List.nodup_range cnt)
  intro k k1 hkk
  simp only [Prod.mk.injEq] at hkk
  have h2 := hkk.2
  rcases hs with rfl | rfl <;> omega

/-- Membership in a vertical run. -/
theorem vsegList_mem (x0 b s : Int) (cnt : Nat) (p : Int × Int) :
    p ∈ vsegList x0 b cnt s ↔ ∃ k : Nat, k < cnt ∧ p = (x0, b + s * (k : Int)) := by
  unfold vsegList
  constructor
  · intro h
    obtain ⟨k, hk, hf⟩ := List.mem_map.mp h
    exact ⟨k, List.mem_range.mp hk, hf.symm⟩
  · rintro ⟨k, hk, rfl⟩
    exact List.mem_map.mpr ⟨k, List.mem_range.mpr hk, rfl⟩

/-- On a horizontal segment (`dy = 0`, positive `dx = D`) the Bresenham loop
steps only in x, painting the run of points from the current position to the
target, one per iteration. -/
theorem drawLineLoop_horiz (xT y0 D sy s : Int) (c : Color) (hD : 0 < D)
    (hs : s = 1 ∨ s = -1) :
    ∀ (n m : Nat), m < n → ∀ (x1 : Int) (r : Renderer),
      xT = x1 + s * (m : Int) →
      drawLineLoop xT y0 D 0 s sy c n x1 y0 D r =
        paintList c (hsegList y0 x1 (m + 1) s) r := by
  intro n
  induction n with
  | zero => intro m hm; exact absurd hm (Nat.not_lt_zero m)
  | succ n ih =>
    intro m hm x1 r hx
    simp only [drawLineLoop, and_true, true_and]
    cases m with
    | zero =>
      have hx1 : x1 = xT := by simpa using hx.symm
      rw [if_pos hx1, hsegList_succ]
      rfl
    | succ m1 =>
      have hx1 : x1 ≠ xT := by
        intro h1
        rcases hs with rfl | rfl <;> omega
      rw [if_neg hx1]
      simp only [eq_true (show (2 : Int) * D > -0 by omega),
        eq_false (show ¬((2 : Int) * D < D) by omega), if_true, if_false,
        sub_zero]
      rw [hsegList_succ]
      exact ih m1 (by omega) (x1 + s) (renderer_draw_pixel r x1 y0 c)
        (by rcases hs with rfl | rfl <;> push_cast at hx ⊢ <;> omega)

/-- On a vertical segment (`dx = 0`, positive `dy = D`) the Bresenham loop
steps only in y, painting the run of points from the current position to the
target, one per iteration. -/
theorem drawLineLoop_vert (x0 yT D sx s : Int) (c : Color) (hD : 0 < D)
    (hs : s = 1 ∨ s = -1) :
    ∀ (n m : Nat), m < n → ∀ (y1 : Int) (r : Renderer),
      yT = y1 + s * (m : Int) →
      drawLineLoop x0 yT 0 D sx s c n x0 y1 (-D) r =
        paintList c (vsegList x0 y1 (m + 1) s) r := by
  intro n
  induction n with
  | zero => intro m hm; exact absurd hm (Nat.not_lt_zero m)
  | succ n ih =>
    intro m hm y1 r hy
    simp only [drawLineLoop, and_true, true_and]
    cases m with
    | zero =>
      have hy1 : y1 = yT := by simpa using hy.symm
      rw [if_pos hy1, vsegList_succ]
      rfl
    | succ m1 =>
      have hy1 : y1 ≠ yT := by
        intro h2
        rcases hs with rfl | rfl <;> omega
      rw [if_neg hy1]
      simp only [eq_false (show ¬((2 : Int) * -D > -D) by omega),
        eq_true (show (2 : Int) * -D < 0 by omega), if_true, if_false,
        add_zero]
      rw [vsegList_succ]
      exact ih m1 (by omega) (y1 + s) (renderer_draw_pixel r x0 y1 c)
        (by rcases hs with rfl | rfl <;> push_cast at hy ⊢ <;> omega)

end Helpers

/-- Claim C1.  For every renderer state and every colour, a call of
`renderer_draw_pixel` at coordinates outside the rectangle
`[0,width) × [0,height)` is a silent no-op: the whole renderer, in particular
every pixel of the framebuffer, is unchanged. -/
theorem draw_pixel_out_of_bounds_noop (rend : Renderer) (x y : Int)
    (color : Color)
    (h : ¬(0 ≤ x ∧ x < rend.width ∧ 0 ≤ y ∧ y < rend.height)) :
    renderer_draw_pixel rend x y color = rend := by
  rw [renderer_draw_pixel, if_pos (by omega)]

/-- Witness for claim C1, at the concrete point `(5, 0)` on a 2 by 2
renderer. -/
theorem draw_pixel_out_of_bounds_noop_witness :
    renderer_draw_pixel ⟨2, 2, fun _ => 0⟩ 5 0 ⟨9, 8, 7, 6⟩ = ⟨2, 2, fun _ => 0⟩ :=
  draw_pixel_out_of_bounds_noop ⟨2, 2, fun _ => 0⟩ 5 0 ⟨9, 8, 7, 6⟩ (by decide)

/-- Claim C2.  The filled-triangle rasterizer never divides by zero (the
option-valued embedding returns `none` exactly when a division has a zero
divisor, and it never does), and a fully degenerate triangle whose three
vertices coincide leaves the framebuffer unchanged. -/
theorem filled_triangle_no_div_by_zero_and_degenerate_noop :
    (∀ (rend : Renderer) (x1 y1 x2 y2 x3 y3 : Int) (c : Color),
      (renderer_draw_filled_triangle rend x1 y1 x2 y2 x3 y3 c).isSome = true) ∧
    (∀ (rend : Renderer) (x y : Int) (c : Color),
      renderer_draw_filled_triangle rend x y x y x y c = some rend) := by
  constructor
  · intro rend x1 y1 x2 y2 x3 y3 c
    unfold renderer_draw_filled_triangle
    split <;> exact triSwap13_isSome _ _ _ _ _ _ _ _
  · intro rend x y c
    simp [renderer_draw_filled_triangle, triSwap13, triSwap23, triFillSorted,
      lt_irrefl]

/-- Claim C3.  The BMP loader fails (returns the `none` sentinel) if and only
if the file cannot be opened, or the two magic bytes are not the codes of the
characters B and M (66 and 77), or the bits-per-pixel field is neither 24 nor
32; in every other case it returns a decoded image. -/
theorem image_load_bmp_none_iff :
    (image_load_bmp none = none) ∧
    (∀ f : BmpFile,
      image_load_bmp (some f) = none ↔
        (f 0).val ≠ 66 ∨ (f 1).val ≠ 77 ∨
          (readI16 f 28 ≠ 24 ∧ readI16 f 28 ≠ 32)) := by
  refine ⟨rfl, fun f => ?_⟩
  simp only [image_load_bmp]
  by_cases hmagic : (f 0).val ≠ 66 ∨ (f 1).val ≠ 77
  · rw [if_pos hmagic]
    exact iff_of_true rfl (hmagic.imp id Or.inl)
  · rw [if_neg hmagic]
    by_cases hbpp : readI16 f 28 ≠ 24 ∧ readI16 f 28 ≠ 32
    · rw [if_pos hbpp]
      exact iff_of_true rfl (Or.inr (Or.inr hbpp))
    · rw [if_neg hbpp]
      exact iff_of_false (by simp) (by tauto)

/-- Claim C4, blend computation.  Writing colour `(255,0,0,128)` over a pixel
word whose three colour channels are zero stores the word `0xFF800000`. -/
theorem drawPixelVal_half_red (old : Nat)
    (hr : (old >>> 16) &&& 255 = 0) (hg : (old >>> 8) &&& 255 = 0)
    (hb : old &&& 255 = 0) :
    drawPixelVal ⟨255, 0, 0, 128⟩ old = 4286578688 := by
  rw [drawPixelVal]
  simp only [hr, hg, hb]
  norm_num [u8ofQ, truncQ, pack]
  decide

/-- Claim C4.  An in-bounds `renderer_draw_pixel` with colour
`{r=255,g=0,b=0,a=128}` over a pixel whose stored RGB is `{0,0,0}` stores a
pixel whose red byte is 128, whose green and blue bytes are 0 and whose alpha
byte is exactly 255. -/
theorem draw_pixel_blend_half_red (rend : Renderer) (x y : Int)
    (hx0 : 0 ≤ x) (hx1 : x < rend.width) (hy0 : 0 ≤ y) (hy1 : y < rend.height)
    (hr : (rend.framebuffer (y * rend.width + x) >>> 16) &&& 255 = 0)
    (hg : (rend.framebuffer (y * rend.width + x) >>> 8) &&& 255 = 0)
    (hb : rend.framebuffer (y * rend.width + x) &&& 255 = 0) :
    ((renderer_draw_pixel rend x y ⟨255, 0, 0, 128⟩).framebuffer
        (y * rend.width + x) >>> 16) &&& 255 = 128 ∧
    ((renderer_draw_pixel rend x y ⟨255, 0, 0, 128⟩).framebuffer
        (y * rend.width + x) >>> 8) &&& 255 = 0 ∧
    (renderer_draw_pixel rend x y ⟨255, 0, 0, 128⟩).framebuffer
        (y * rend.width + x) &&& 255 = 0 ∧
    ((renderer_draw_pixel rend x y ⟨255, 0, 0, 128⟩).framebuffer
        (y * rend.width + x) >>> 24) &&& 255 = 255 := by
  have key : (renderer_draw_pixel rend x y ⟨255, 0, 0, 128⟩).framebuffer
      (y * rend.width + x) = 4286578688 := by
    rw [renderer_draw_pixel, if_neg (by omega)]
    dsimp only
    rw [if_pos rfl]
    exact drawPixelVal_half_red _ hr hg hb
  refine ⟨?_, ?_, ?_, ?_⟩ <;> rw [key] <;> decide

/-- Witness for claim C4, on a 1 by 1 renderer whose single pixel holds 0. -/
theorem draw_pixel_blend_half_red_witness :
    ((renderer_draw_pixel ⟨1, 1, fun _ => 0⟩ 0 0 ⟨255, 0, 0, 128⟩).framebuffer
        0 >>> 16) &&& 255 = 128 := by
  have h := draw_pixel_blend_half_red ⟨1, 1, fun _ => 0⟩ 0 0 (by decide)
    (by decide) (by decide) (by decide) (by decide) (by decide) (by decide)
  simpa using h.1

/-- Claim C8.  Normalizing the zero vector returns exactly the zero vector:
the zero-length guard fires before the division, and more generally a zero
computed length always yields the zero vector. -/
theorem vec3_normalize_zero :
    vec3_normalize (vec3_make 0 0 0) = vec3_make 0 0 0 ∧
    ∀ v : Vec3, Rat.sqrt (v.x * v.x + v.y * v.y + v.z * v.z) = 0 →
      vec3_normalize v = vec3_make 0 0 0 := by
  constructor
  · rw [vec3_normalize]
    norm_num [vec3_make, rat_sqrt_zero]
  · intro v h
    rw [vec3_normalize]
    simp [h]

/-- Witness for claim C8, reapplying the guarded branch at the zero vector. -/
theorem vec3_normalize_zero_witness :
    vec3_normalize (vec3_make 0 0 0) = vec3_make 0 0 0 :=
  vec3_normalize_zero.2 (vec3_make 0 0 0) (by norm_num [vec3_make, rat_sqrt_zero])

/-- Claim C9.  Projection of the origin through the identity transform lands
exactly at the centre of the screen, the integer point
`(width / 2, height / 2)` (C integer division), with depth 0. -/
theorem project_point_origin_identity_center (w h : Nat) (fb : Int → Nat) :
    renderer_project_point ⟨(w : Int), (h : Int), fb⟩ (vec3_make 0 0 0)
        mat4_identity = (((w / 2 : Nat) : Int), ((h / 2 : Nat) : Int), 0) := by
  have hmv : mat4_mul_vec3 mat4_identity (vec3_make 0 0 0) 1 = vec3_make 0 0 0 := by
    rw [mat4_mul_vec3]
    norm_num [vec3_make, show mat4_identity 3 0 = 0 from rfl,
      show mat4_identity 3 1 = 0 from rfl, show mat4_identity 3 2 = 0 from rfl,
      show mat4_identity 3 3 = 1 from rfl]
  have harg : ∀ n : ℕ, truncQ ((((0 : ℚ) + 1) * (1 / 2)) * (((n : Int)) : ℚ)) =
      ((n / 2 : ℕ) : ℤ) := by
    intro n
    rw [show (((0 : ℚ) + 1) * (1 / 2)) * (((n : Int)) : ℚ) =
        ((n : ℤ) : ℚ) / ((2 : ℕ) : ℚ) by push_cast; ring]
    rw [truncQ_eq_floor _ (by positivity), Rat.floor_intCast_div_natCast]
    omega
  rw [renderer_project_point, hmv]
  dsimp only [vec3_make]
  rw [Prod.mk.injEq, Prod.mk.injEq]
  refine ⟨?_, ?_, rfl⟩
  · exact harg w
  · rw [show ((1 : ℚ) - 0) * (1 / 2) * (((h : Int)) : ℚ) =
      (((0 : ℚ) + 1) * (1 / 2)) * (((h : Int)) : ℚ) by ring]
    exact harg h

/-- Claim C10.  A null image pointer makes `renderer_draw_image` and
`renderer_draw_textured_triangle` complete no-ops: the renderer is returned
unchanged. -/
theorem draw_with_null_image_noop :
    (∀ (rend : Renderer) (x y : Int),
      renderer_draw_image rend none x y = rend) ∧
    (∀ (rend : Renderer) (x1 y1 x2 y2 x3 y3 : Int) (u1 v1 u2 v2 u3 v3 : ℚ),
      renderer_draw_textured_triangle rend x1 y1 x2 y2 x3 y3 u1 v1 u2 v2 u3 v3
          none = rend) :=
  ⟨fun _ _ _ => rfl, fun _ _ _ _ _ _ _ _ _ _ _ _ _ => rfl⟩

/-- A horizontal run and its reversal cover the same points. -/
theorem hsegList_swap_mem (y0 x1 x2 : Int) (m : Nat) (hx2 : x2 = x1 + (m : Int))
    (p : Int × Int) :
    p ∈ hsegList y0 x1 (m + 1) 1 ↔ p ∈ hsegList y0 x2 (m + 1) (-1) := by
  rw [hsegList_mem, hsegList_mem]
  constructor
  · rintro ⟨k, hk, rfl⟩
    refine ⟨m - k, by omega, ?_⟩
    rw [Prod.mk.injEq]
    refine ⟨?_, rfl⟩
    omega
  · rintro ⟨k, hk, rfl⟩
    refine ⟨m - k, by omega, ?_⟩
    rw [Prod.mk.injEq]
    refine ⟨?_, rfl⟩
    omega

/-- A vertical run and its reversal cover the same points. -/
theorem vsegList_swap_mem (x0 y1 y2 : Int) (m : Nat) (hy2 : y2 = y1 + (m : Int))
    (p : Int × Int) :
    p ∈ vsegList x0 y1 (m + 1) 1 ↔ p ∈ vsegList x0 y2 (m + 1) (-1) := by
  rw [vsegList_mem, vsegList_mem]
  constructor
  · rintro ⟨k, hk, rfl⟩
    refine ⟨m - k, by omega, ?_⟩
    rw [Prod.mk.injEq]
    refine ⟨rfl, ?_⟩
    omega
  · rintro ⟨k, hk, rfl⟩
    refine ⟨m - k, by omega, ?_⟩
    rw [Prod.mk.injEq]
    refine ⟨rfl, ?_⟩
    omega

/-- Painting two duplicate-free lists covering the same points yields the same
renderer. -/
theorem paintList_congr_set (c : Color) (ps qs : List (Int × Int))
    (r : Renderer) (hp : ps.Nodup) (hq : qs.Nodup)
    (hmem : ∀ p, p ∈ ps ↔ p ∈ qs) : paintList c ps r = paintList c qs r := by
  apply Renderer.ext
  · rw [paintList_width, paintList_width]
  · rw [paintList_height, paintList_height]
  · funext i
    by_cases hex : ∃ p ∈ ps, inBounds r p ∧ i = p.2 * r.width + p.1
    · rw [paintList_fb_hit c ps r i hp hex]
      rw [paintList_fb_hit c qs r i hq (by
        obtain ⟨p, hmem1, hrest⟩ := hex
        exact ⟨p, (hmem p).mp hmem1, hrest⟩)]
    · rw [paintList_fb_miss c ps r i hex]
      rw [paintList_fb_miss c qs r i (by
        rintro ⟨p, hmem1, hrest⟩
        exact hex ⟨p, (hmem p).mpr hmem1, hrest⟩)]

/-- Bresenham on a horizontal segment is symmetric in endpoint order. -/
theorem draw_line_horiz_symm (rend : Renderer) (c : Color) (y0 x1 x2 : Int)
    (hlt : x1 < x2) :
    renderer_draw_line rend x1 y0 x2 y0 c =
      renderer_draw_line rend x2 y0 x1 y0 c := by
  have hD : 0 < x2 - x1 := by omega
  have habs1 : |x2 - x1| = x2 - x1 := abs_of_pos hD
  have habs2 : |x1 - x2| = x2 - x1 := by rw [abs_sub_comm]; exact habs1
  have hy : |y0 - y0| = 0 := by rw [sub_self, abs_zero]
  simp only [renderer_draw_line, habs1, habs2, hy, if_pos hlt,
    if_neg (lt_irrefl y0), if_neg (show ¬x2 < x1 by omega), add_zero, sub_zero]
  rw [drawLineLoop_horiz x2 y0 (x2 - x1) (-1) 1 c hD (Or.inl rfl)
    ((x2 - x1).toNat + 1) (x2 - x1).toNat (by omega) x1 rend (by omega)]
  rw [drawLineLoop_horiz x1 y0 (x2 - x1) (-1) (-1) c hD (Or.inr rfl)
    ((x2 - x1).toNat + 1) (x2 - x1).toNat (by omega) x2 rend (by omega)]
  exact paintList_congr_set c _ _ rend
    (hsegList_nodup y0 x1 1 _ (Or.inl rfl))
    (hsegList_nodup y0 x2 (-1) _ (Or.inr rfl))
    (hsegList_swap_mem y0 x1 x2 (x2 - x1).toNat (by omega))

/-- Bresenham on a vertical segment is symmetric in endpoint order. -/
theorem draw_line_vert_symm (rend : Renderer) (c : Color) (x0 y1 y2 : Int)
    (hlt : y1 < y2) :
    renderer_draw_line rend x0 y1 x0 y2 c =
      renderer_draw_line rend x0 y2 x0 y1 c := by
  have hD : 0 < y2 - y1 := by omega
  have habs1 : |y2 - y1| = y2 - y1 := abs_of_pos hD
  have habs2 : |y1 - y2| = y2 - y1 := by rw [abs_sub_comm]; exact habs1
  have hx : |x0 - x0| = 0 := by rw [sub_self, abs_zero]
  simp only [renderer_draw_line, habs1, habs2, hx, if_pos hlt,
    if_neg (lt_irrefl x0), if_neg (show ¬y2 < y1 by omega), zero_add, zero_sub]
  rw [drawLineLoop_vert x0 y2 (y2 - y1) (-1) 1 c hD (Or.inl rfl)
    ((y2 - y1).toNat + 1) (y2 - y1).toNat (by omega) y1 rend (by omega)]
  rw [drawLineLoop_vert x0 y1 (y2 - y1) (-1) (-1) c hD (Or.inr rfl)
    ((y2 - y1).toNat + 1) (y2 - y1).toNat (by omega) y2 rend (by omega)]
  exact paintList_congr_set c _ _ rend
    (vsegList_nodup x0 y1 1 _ (Or.inl rfl))
    (vsegList_nodup x0 y2 (-1) _ (Or.inr rfl))
    (vsegList_swap_mem x0 y1 y2 (y2 - y1).toNat (by omega))

/-- Counterexample to claim C6.  Bresenham as implemented is not symmetric in
endpoint order: rasterizing from `(0,0)` to `(4,2)` on a 6 by 3 black canvas
paints pixel `(1,0)`, while the reverse direction paints `(1,1)` instead, so
the two final framebuffers differ. -/
theorem draw_line_not_symmetric_cex :
    renderer_draw_line ⟨6, 3, fun _ => 0⟩ 0 0 4 2 ⟨255, 255, 255, 255⟩ ≠
      renderer_draw_line ⟨6, 3, fun _ => 0⟩ 4 2 0 0 ⟨255, 255, 255, 255⟩ := by
  intro h
  exact absurd (congrArg (fun s => s.framebuffer 1) h) (by decide)

/-- Claim C6, amended.  Endpoint-order symmetry of `renderer_draw_line` does
not hold in general (see the counterexample), but it does hold for every
axis-aligned segment: for horizontal or vertical lines both endpoint orders
paint exactly the pixels of the segment and produce identical renderers. -/
theorem draw_line_axis_aligned_symmetric (rend : Renderer) (c : Color)
    (x1 y1 x2 y2 : Int) (h : x1 = x2 ∨ y1 = y2) :
    renderer_draw_line rend x1 y1 x2 y2 c =
      renderer_draw_line rend x2 y2 x1 y1 c := by
  rcases h with h | h
  · subst h
    rcases lt_trichotomy y1 y2 with hlt | heq | hgt
    · exact draw_line_vert_symm rend c x1 y1 y2 hlt
    · rw [heq]
    · exact (draw_line_vert_symm rend c x1 y2 y1 hgt).symm
  · subst h
    rcases lt_trichotomy x1 x2 with hlt | heq | hgt
    · exact draw_line_horiz_symm rend c y1 x1 x2 hlt
    · rw [heq]
    · exact (draw_line_horiz_symm rend c y1 x2 x1 hgt).symm

/-- Witness for the amended claim C6, on a concrete horizontal segment. -/
theorem draw_line_axis_aligned_symmetric_witness :
    renderer_draw_line ⟨4, 4, fun _ => 0⟩ 0 1 2 1 ⟨10, 20, 30, 255⟩ =
      renderer_draw_line ⟨4, 4, fun _ => 0⟩ 2 1 0 1 ⟨10, 20, 30, 255⟩ :=
  draw_line_axis_aligned_symmetric ⟨4, 4, fun _ => 0⟩ ⟨10, 20, 30, 255⟩ 0 1 2 1
    (Or.inr rfl)

/-- Square root of a positive integer, as a rational, is nonzero. -/
theorem rat_sqrt_int_ne_zero (s : Int) (h : 1 ≤ s) :
    Rat.sqrt ((s : ℚ)) ≠ 0 := by
  rw [Rat.sqrt_intCast]
  intro h0
  have h1 : Int.sqrt s = 0 := by exact_mod_cast h0
  rw [Int.sqrt] at h1
  have h2 : Nat.sqrt s.toNat = 0 := by exact_mod_cast h1
  have h3 := Nat.sqrt_eq_zero.mp h2
  omega

/-- With coincident endpoints every `renderer_draw_thick_line` iteration skips
on zero length, so no line calls are emitted. -/
theorem thickLineCallsLoop_nil (x y lo : Int) :
    ∀ n, thickLineCallsLoop x y x y lo n = [] := by
  intro n
  induction n with
  | zero => rfl
  | succ m ih =>
    simp only [thickLineCallsLoop, sub_self, mul_zero, zero_mul, add_zero,
      Int.cast_zero, rat_sqrt_zero, if_pos]
    exact ih

/-- With distinct endpoints every iteration of the thick-line loop emits
exactly one line call. -/
theorem thickLineCallsLoop_length (x1 y1 x2 y2 lo : Int)
    (hne : ¬(x1 = x2 ∧ y1 = y2)) :
    ∀ n, (thickLineCallsLoop x1 y1 x2 y2 lo n).length = n := by
  have hs : 1 ≤ (y2 - y1) * (y2 - y1) + (x2 - x1) * (x2 - x1) := by
    rcases not_and_or.mp hne with h | h
    · have h1 : 0 < (x2 - x1) * (x2 - x1) := mul_self_pos.mpr (by omega)
      have h2 : 0 ≤ (y2 - y1) * (y2 - y1) := mul_self_nonneg _
      omega
    · have h1 : 0 < (y2 - y1) * (y2 - y1) := mul_self_pos.mpr (by omega)
      have h2 : 0 ≤ (x2 - x1) * (x2 - x1) := mul_self_nonneg _
      omega
  have hlen : ¬(Rat.sqrt
      ((((y2 - y1) * (y2 - y1) + (x2 - x1) * (x2 - x1) : Int)) : ℚ) = 0) :=
    rat_sqrt_int_ne_zero _ hs
  intro n
  induction n with
  | zero => rfl
  | succ m ih =>
    simp only [thickLineCallsLoop, if_neg hlen]
    rw [List.length_append, ih]
    rfl

/-- Every call emitted by the thick-line loop is a common translate of the
base segment: both endpoints are shifted by the same integer offset. -/
theorem thickLineCallsLoop_shape (x1 y1 x2 y2 lo : Int) :
    ∀ (n : Nat) (call : Int × Int × Int × Int),
      call ∈ thickLineCallsLoop x1 y1 x2 y2 lo n →
      ∃ ox oy : Int, call = (x1 + ox, y1 + oy, x2 + ox, y2 + oy) := by
  intro n
  induction n with
  | zero => intro call h; exact absurd h (List.not_mem_nil call)
  | succ m ih =>
    intro call h
    simp only [thickLineCallsLoop] at h
    by_cases hlen : Rat.sqrt
        ((((y2 - y1) * (y2 - y1) + (x2 - x1) * (x2 - x1) : Int)) : ℚ) = 0
    · rw [if_pos hlen] at h
      exact ih call h
    · rw [if_neg hlen] at h
      rcases List.mem_append.mp h with h1 | h1
      · exact ih call h1
      · rw [List.mem_singleton] at h1
        exact ⟨_, _, h1⟩

/-- Counterexample to claim C5.  With thickness 2 and the distinct endpoints
`(0,0)` and `(1,0)` the loop `t = -thickness/2 .. thickness/2` runs three
times and `renderer_draw_thick_line` performs three `renderer_draw_line`
calls, not two. -/
theorem thick_line_two_calls_cex :
    (renderer_draw_thick_line_calls 0 0 1 0 2).length ≠ 2 := by
  simp only [renderer_draw_thick_line_calls]
  rw [thickLineCallsLoop_length 0 0 1 0 _ (by decide)]
  decide

/-- Claim C5, amended.  For distinct endpoints, `renderer_draw_thick_line`
performs exactly `2*(thickness/2) + 1` calls to `renderer_draw_line` (C
truncating division, clamped at zero for negative thickness) — that is
`thickness` calls for odd thickness but `thickness + 1` for even thickness —
and every call is the base line translated by a common per-call offset; with
coincident endpoints nothing is drawn. -/
theorem thick_line_call_count_and_shape :
    (∀ x1 y1 x2 y2 thickness : Int, ¬(x1 = x2 ∧ y1 = y2) →
      (renderer_draw_thick_line_calls x1 y1 x2 y2 thickness).length =
        (2 * thickness.tdiv 2 + 1).toNat ∧
      ∀ call ∈ renderer_draw_thick_line_calls x1 y1 x2 y2 thickness,
        ∃ ox oy : Int, call = (x1 + ox, y1 + oy, x2 + ox, y2 + oy)) ∧
    (∀ x y thickness : Int,
      renderer_draw_thick_line_calls x y x y thickness = []) := by
  constructor
  · intro x1 y1 x2 y2 t hne
    constructor
    · simp only [renderer_draw_thick_line_calls]
      rw [thickLineCallsLoop_length x1 y1 x2 y2 _ hne, Int.neg_tdiv]
      omega
    · intro call hc
      simp only [renderer_draw_thick_line_calls] at hc
      exact thickLineCallsLoop_shape x1 y1 x2 y2 _ _ call hc
  · intro x y t
    simp only [renderer_draw_thick_line_calls]
    exact thickLineCallsLoop_nil x y _ _

/-- Witness for the amended claim C5: thickness 3 on a concrete short segment
yields exactly three emitted line calls. -/
theorem thick_line_call_count_witness :
    (renderer_draw_thick_line_calls 0 0 1 0 3).length = 3 := by
  have h := (thick_line_call_count_and_shape.1 0 0 1 0 3 (by decide)).1
  rw [h]
  decide

/-- Value stored by the BMP column loop at a written index. -/
theorem bmpRowLoop_hit (f : BmpFile) (bpp rowStart idxBase : Int) :
    ∀ (m : Nat) (px : Int → Nat) (x0 : Int), 0 ≤ x0 → x0 < (m : Int) →
      bmpRowLoop f bpp rowStart idxBase m px (idxBase + x0) =
        pack (if bpp = 32 then (f (rowStart + x0 * 4 + 3)).val else 255)
          (f (rowStart + x0 * bpp.tdiv 8 + 2)).val
          (f (rowStart + x0 * bpp.tdiv 8 + 1)).val
          (f (rowStart + x0 * bpp.tdiv 8)).val := by
  intro m
  induction m with
  | zero => intro px x0 h0 h1; exact absurd h1 (by omega)
  | succ k ih =>
    intro px x0 h0 h1
    simp only [bmpRowLoop]
    by_cases hx : x0 = (k : Int)
    · subst hx
      rw [if_pos rfl]
    · rw [if_neg (by omega)]
      exact ih px x0 h0 (by omega)

/-- Indices the BMP column loop does not write are left unchanged. -/
theorem bmpRowLoop_miss (f : BmpFile) (bpp rowStart idxBase : Int) :
    ∀ (m : Nat) (px : Int → Nat) (i : Int),
      (∀ x0 : Int, 0 ≤ x0 → x0 < (m : Int) → i ≠ idxBase + x0) →
      bmpRowLoop f bpp rowStart idxBase m px i = px i := by
  intro m
  induction m with
  | zero => intro px i _; rfl
  | succ k ih =>
    intro px i h
    simp only [bmpRowLoop]
    rw [if_neg (h (k : Int) (by omega) (by omega))]
    exact ih px i (fun x0 h0 h1 => h x0 h0 (by omega))

/-- Value of one decoded pixel after the BMP row loop, for a bottom-up file
(positive header height): destination row `y0` is filled from file row
`imgH - 1 - y0`. -/
theorem bmpRowsLoop_pixel (f : BmpFile) (bpp width height imgH rowSize : Int)
    (hh : height > 0) (hw : 0 < width) :
    ∀ (n : Nat) (px : Int → Nat) (x0 y0 : Int),
      0 ≤ x0 → x0 < width → 0 ≤ y0 → y0 < imgH → imgH - 1 - y0 < (n : Int) →
      bmpRowsLoop f bpp width height imgH rowSize n px (y0 * width + x0) =
        pack
          (if bpp = 32 then
            (f (54 + (imgH - 1 - y0) * rowSize + x0 * 4 + 3)).val else 255)
          (f (54 + (imgH - 1 - y0) * rowSize + x0 * bpp.tdiv 8 + 2)).val
          (f (54 + (imgH - 1 - y0) * rowSize + x0 * bpp.tdiv 8 + 1)).val
          (f (54 + (imgH - 1 - y0) * rowSize + x0 * bpp.tdiv 8)).val := by
  intro n
  induction n with
  | zero => intro px x0 y0 h1 h2 h3 h4 h5; exact absurd h5 (by omega)
  | succ k ih =>
    intro px x0 y0 h1 h2 h3 h4 h5
    simp only [bmpRowsLoop]
    rw [if_pos hh]
    by_cases hrow : imgH - 1 - y0 = (k : Int)
    · have hy0k : y0 = imgH - 1 - (k : Int) := by omega
      subst hy0k
      rw [show imgH - 1 - (imgH - 1 - (k : Int)) = (k : Int) from by omega]
      exact bmpRowLoop_hit f bpp (54 + (k : Int) * rowSize)
        ((imgH - 1 - (k : Int)) * width) width.toNat _ x0 h1 (by omega)
    · rw [bmpRowLoop_miss f bpp (54 + (k : Int) * rowSize)
        ((imgH - 1 - (k : Int)) * width) width.toNat _ (y0 * width + x0)
        (fun x1 hx1 hx1w heq => by
          have hx1w2 : x1 < width := by omega
          obtain ⟨hq1, hq2⟩ := rowIdx_inj width y0 (imgH - 1 - (k : Int)) x0 x1
            h1 h2 hx1 hx1w2 heq
          exact hrow (by omega))]
      exact ih px x0 y0 h1 h2 h3 h4 (by omega)

/-- Claim C7.  Loading a well-formed uncompressed 24-bit BMP with positive
header width and height yields a top-to-bottom image: the decoded pixel at
grid position `(x, y)` is built from file row `height - 1 - y` (rows of
`((24*width+31)/32)*4` bytes starting right after the 54-byte header), taking
the file bytes in B, G, R order and forcing the alpha byte to 255. -/
theorem bmp_decode_24bit_topdown (f : BmpFile) (w h x y : Int)
    (hm0 : (f 0).val = 66) (hm1 : (f 1).val = 77)
    (hbpp : readI16 f 28 = 24)
    (hw : readI32 f 18 = w) (hh : readI32 f 22 = h)
    (hw0 : 0 < w) (hh0 : 0 < h)
    (hx0 : 0 ≤ x) (hx1 : x < w) (hy0 : 0 ≤ y) (hy1 : y < h) :
    ∃ img : Image, image_load_bmp (some f) = some img ∧
      img.width = w ∧ img.height = h ∧
      img.pixels (y * w + x) =
        pack 255
          (f (54 + (h - 1 - y) * (((24 * w + 31).tdiv 32) * 4) + x * 3 + 2)).val
          (f (54 + (h - 1 - y) * (((24 * w + 31).tdiv 32) * 4) + x * 3 + 1)).val
          (f (54 + (h - 1 - y) * (((24 * w + 31).tdiv 32) * 4) + x * 3)).val := by
  have habs : |h| = h := abs_of_pos hh0
  have hload : image_load_bmp (some f) = some
      { width := w, height := h,
        pixels := bmpRowsLoop f 24 w h h (((24 * w + 31).tdiv 32) * 4) h.toNat
          (fun _ => 0) } := by
    simp only [image_load_bmp, hbpp, hw, hh, habs]
    rw [if_neg (by rw [hm0, hm1]; norm_num), if_neg (by norm_num)]
  refine ⟨_, hload, rfl, rfl, ?_⟩
  dsimp only
  rw [bmpRowsLoop_pixel f 24 w h h (((24 * w + 31).tdiv 32) * 4) hh0 hw0
    h.toNat (fun _ => 0) x y hx0 hx1 hy0 (by omega) (by omega)]
  rw [if_neg (by decide), show (24 : Int).tdiv 8 = 3 from by decide]

/-- Witness for claim C7: decoding the concrete 2 by 2 sample BMP; the
top-left grid pixel comes from the second (bottom-up) file row and decodes to
opaque red. -/
theorem bmp_decode_24bit_topdown_witness :
    ∃ img : Image, image_load_bmp (some bmpSampleFile) = some img ∧
      img.width = 2 ∧ img.height = 2 ∧
      img.pixels (0 * 2 + 0) = pack 255 255 0 0 := by
  obtain ⟨img, h1, h2, h3, h4⟩ := bmp_decode_24bit_topdown bmpSampleFile 2 2 0 0
    (by decide) (by decide) (by decide) (by decide) (by decide) (by decide)
    (by decide) (by decide) (by decide) (by decide) (by decide)
  exact ⟨img, h1, h2, h3, h4.trans (by decide)⟩

end LearnC
